import Mathlib

/-!
Verification of the FLIM `LCNCreator` build pipeline
(`src/flim/models/lcn/_creator.py`) against its natural-language
specification.  The Python source is shallowly embedded: numpy arrays
become (rectangular) nested lists, label maps become `List (List ℤ)`,
fallible code returns `Option`/`Except`, and the external sklearn
routines (`KMeans.fit`/`PCA.fit`) are taken as parameters constrained
only by their documented output-shape contracts
(`cluster_centers_` has exactly `n_clusters` rows, `components_` has
exactly `n_components` rows).
-/

/-- A marker label map for one image, shape `(H, W)`; `0` means unlabeled. -/
abbrev MarkerMap := List (List ℤ)

/-- One image, shape `(H, W, C)`, entries in an arbitrary value type. -/
abbrev ImageT (α : Type) := List (List (List α))

/-- One extracted patch, shape `(kh, kw, C)`. -/
abbrev PatchT (α : Type) := List (List (List α))

/-- `np.array(markers).max()` over a batch of marker maps (labels are
nonnegative in the data model, so folding `max` from `0` agrees with
numpy's maximum on any batch that has at least one entry). -/
def markersMax (mks : List MarkerMap) : ℤ :=
  ((mks.bind id).bind id).foldr max 0

/-- `math.ceil(a / b)` for nonnegative integers `a`, positive `b`
(`_build_module`, line 411: the two operands are a Python int and a
numpy integer, divided with true division and passed to `math.ceil`). -/
def mathCeilDiv (a b : ℕ) : ℕ :=
  (a + b - 1) / b

/-- The default `number_of_kernels_per_marker` computed at
`_creator.py:411`: `math.ceil(operation_params["out_channels"] / np.array(markers).max())`. -/
def defaultNKPM (out_channels : ℕ) (mks : List MarkerMap) : ℕ :=
  mathCeilDiv out_channels (markersMax mks).toNat

/-- Embedding of `_creator.py:410-411`, the resolution of
`number_of_kernels_per_marker` inside the conv branch of
`LCNCreator._build_module`: when markers are given and the parameter is
absent, the default is computed from `out_channels` (a `KeyError` if that
param is missing) and the markers' maximum label (a `ZeroDivisionError`
if it is zero); otherwise the explicitly supplied value is used. -/
def resolvedNKPM (params_out : Option ℕ) (params_nkpm : Option ℕ)
    (markers : Option (List MarkerMap)) : Except String (Option ℕ) :=
  match markers with
  | some mks =>
    if params_nkpm = none then
      match params_out with
      | none => .error "KeyError: out_channels"
      | some oc =>
        if (markersMax mks).toNat = 0 then .error "ZeroDivisionError"
        else .ok (some (defaultNKPM oc mks))
    else .ok params_nkpm
  | none => .ok params_nkpm

/-- The number of distinct (nonzero) labels appearing in a marker batch,
as the spec's words "the number of distinct labels in the marker set"
describe it (data model: `0 = unlabeled, 1..K = class labels`).  This
definition follows the spec, not the source; the source uses
`np.array(markers).max()` instead. -/
def specDistinctLabelCount (mks : List MarkerMap) : ℕ :=
  (((mks.bind id).bind id).filter (fun v => v ≠ 0)).dedup.length

/-- Embedding of the guard at `_creator.py:419-421`: inside
`if out_channels is not None:`, the code asserts
`out_channels is not None or (number_of_kernels_per_marker * np.array(markers).max() >= out_channels)`.
`cond2` stands for the second disjunct; Python's `or` short-circuits, so
it is never evaluated when the first disjunct holds.  The function
returns whether the assert passes. -/
def convOutChannelsAssert (out_channels : Option ℕ) (cond2 : Bool) : Bool :=
  if out_channels.isSome then (out_channels.isSome || cond2) else true

/-- `mathCeilDiv` is the rational ceiling of the division. -/
theorem mathCeilDiv_eq_ceil (a b : ℕ) (hb : 0 < b) :
    mathCeilDiv a b = Nat.ceil ((a : ℚ) / (b : ℚ)) := by
  rcases Nat.eq_zero_or_pos a with ha | ha
  · subst ha
    have h1 : b - 1 < b := by omega
    simp [mathCeilDiv, Nat.div_eq_of_lt h1]
  · have hbq : (0 : ℚ) < (b : ℚ) := by exact_mod_cast hb
    set n := mathCeilDiv a b with hn
    have hmul_le : n * b ≤ a + b - 1 := by
      rw [hn, mathCeilDiv]
      exact Nat.div_mul_le_self _ _
    have hlt : a + b - 1 < n * b + b :=
      calc a + b - 1 < (n + 1) * b :=
            (Nat.div_lt_iff_lt_mul hb).mp (Nat.lt_succ_self ((a + b - 1) / b))
        _ = n * b + b := by ring
    have hn1 : 1 ≤ n := by
      rw [hn, mathCeilDiv, Nat.one_le_div_iff hb]
      omega
    have hne : n ≠ 0 := by omega
    rw [eq_comm, Nat.ceil_eq_iff hne]
    constructor
    · rw [lt_div_iff₀ hbq]
      have hnat : (n - 1) * b < a := by
        have e : (n - 1) * b = n * b - b := by
          rw [Nat.sub_mul, one_mul]
        omega
      exact_mod_cast hnat
    · rw [div_le_iff₀ hbq]
      have hnat : a ≤ n * b := by omega
      exact_mod_cast hnat

/-- C5: the clusters-per-label default used for synthesis when markers
are present and `number_of_kernels_per_marker` is not given equals the
ceiling of `out_channels` divided by the markers' MAXIMUM label value
(amended from the claim's "number of distinct labels"). -/
theorem c5_default_nkpm_is_ceil_div_max (oc : ℕ) (mks : List MarkerMap)
    (hmax : 0 < (markersMax mks).toNat) :
    resolvedNKPM (some oc) none (some mks) = .ok (some (defaultNKPM oc mks)) ∧
    defaultNKPM oc mks = Nat.ceil ((oc : ℚ) / ((markersMax mks).toNat : ℚ)) := by
  constructor
  · simp [resolvedNKPM, Nat.pos_iff_ne_zero.mp hmax]
  · exact mathCeilDiv_eq_ceil oc (markersMax mks).toNat hmax

/-- Witness for C5's theorem at a concrete input. -/
theorem c5_default_nkpm_is_ceil_div_max_witness :
    resolvedNKPM (some 4) none (some [[[0, 3]]]) = .ok (some (defaultNKPM 4 [[[0, 3]]])) ∧
    defaultNKPM 4 [[[0, 3]]] = Nat.ceil ((4 : ℚ) / ((markersMax [[[0, 3]]]).toNat : ℚ)) :=
  c5_default_nkpm_is_ceil_div_max 4 [[[0, 3]]] (by decide)

/-- C5 counterexample: with markers whose single nonzero label is `5`
and `out_channels = 4`, the code computes `ceil(4 / 5) = 1`, while the
claim's `ceil(out_channels / num_distinct_labels) = ceil(4 / 1) = 4`. -/
theorem c5_counterexample :
    resolvedNKPM (some 4) none (some [[[0, 5]]]) = .ok (some 1) ∧
    specDistinctLabelCount [[[0, 5]]] = 1 ∧
    Nat.ceil ((4 : ℚ) / ((specDistinctLabelCount [[[0, 5]]] : ℚ))) = 4 ∧
    (1 : ℕ) ≠ 4 := by
  have h : specDistinctLabelCount [[[0, 5]]] = 1 := by decide
  refine ⟨by rfl, h, ?_, by decide⟩
  rw [h]
  norm_num

/-- C10: the assert at `_creator.py:419-421` can never fire: it is only
reached when `out_channels is not None`, and its first disjunct is
exactly `out_channels is not None`, so the asserted condition is true
regardless of the second (never-evaluated) disjunct. -/
theorem c10_out_channels_assert_never_fails (oc : Option ℕ) (cond2 : Bool) :
    convOutChannelsAssert oc cond2 = true := by
  cases oc <;> simp [convOutChannelsAssert]

/-! ### C8: mutation of the architecture's params mapping (pooling branch) -/

/-- A parameter value in a layer's `params` mapping: a Python int or a
list of ints (the only shapes the pooling branch reads and writes). -/
inductive PVal where
  | i (n : ℤ)
  | l (ns : List ℤ)
deriving DecidableEq

/-- A layer's `params` mapping, as a Python dict: association list in
insertion order. -/
abbrev Params := List (String × PVal)

/-- Python dict lookup. -/
def lookupP (p : Params) (k : String) : Option PVal :=
  match p with
  | [] => none
  | (k', v) :: rest => if k' = k then some v else lookupP rest k

/-- Python dict `p[k] = v`: replaces the value in place when the key is
present, otherwise appends the new entry (insertion order). -/
def setP (p : Params) (k : String) (v : PVal) : Params :=
  match p with
  | [] => [(k, v)]
  | (k', v') :: rest => if k' = k then (k', v) :: rest else (k', v') :: setP rest k v

/-- Embedding of the pooling branch of `LCNCreator._build_module`
(`_creator.py:522-579`) restricted to its effect on the layer's `params`
dict (`operation_params`, which aliases the architecture spec):  it reads
`stride` and `kernel_size` (KeyError when missing, modelled as `none`),
normalizes `padding` to a list (defaulting to `[0] * dims`), writes
`stride = 1` and `padding = [k // 2 for k in kernel_size]` for the
same-size passthrough layer, and finally writes back the original
`stride` and the **normalized** `padding`.  `dims` is 3 for the 3d
operations and 2 otherwise. -/
def poolLeafParams (dims : ℕ) (params : Params) : Option Params :=
  match lookupP params "stride", lookupP params "kernel_size" with
  | some stride, some ks =>
    let padding : PVal :=
      match lookupP params "padding" with
      | some (.i p) => .l (List.replicate dims p)
      | some (.l ps) => .l ps
      | none => .l (List.replicate dims 0)
    let ksl : List ℤ :=
      match ks with
      | .i k => List.replicate dims k
      | .l ks => ks
    let p1 := setP params "stride" (.i 1)
    let p2 := setP p1 "padding" (.l (ksl.map (fun k => k / 2)))
    let p3 := setP p2 "stride" stride
    let p4 := setP p3 "padding" padding
    some p4
  | _, _ => none

/-- Setting the same key twice keeps only the second write. -/
theorem setP_setP_same (p : Params) (k : String) (v w : PVal) :
    setP (setP p k v) k w = setP p k w := by
  induction p with
  | nil => simp [setP]
  | cons hd tl ih =>
    obtain ⟨k', v'⟩ := hd
    by_cases h : k' = k <;> simp [setP, h, ih]

/-- Writing back the value a key already has is a no-op. -/
theorem setP_lookup_self (p : Params) (k : String) (v : PVal)
    (h : lookupP p k = some v) : setP p k v = p := by
  induction p with
  | nil => simp [lookupP] at h
  | cons hd tl ih =>
    obtain ⟨k', v'⟩ := hd
    by_cases hk : k' = k
    · simp [lookupP, hk] at h
      simp [setP, hk, h]
    · simp [lookupP, hk] at h
      simp [setP, hk, ih h]

/-- In-place writes to two distinct keys that are both already present
commute. -/
theorem setP_setP_comm (p : Params) (k1 k2 : String) (v1 v2 : PVal)
    (hne : k1 ≠ k2) (h1 : (lookupP p k1).isSome) (h2 : (lookupP p k2).isSome) :
    setP (setP p k1 v1) k2 v2 = setP (setP p k2 v2) k1 v1 := by
  have hne' : k2 ≠ k1 := hne.symm
  induction p with
  | nil => simp [lookupP] at h1
  | cons hd tl ih =>
    obtain ⟨k', v'⟩ := hd
    by_cases ha : k' = k1
    · have hb : ¬ k' = k2 := by rw [ha]; exact hne
      simp [setP, ha, hb, hne, hne']
    · by_cases hb : k' = k2
      · simp [setP, ha, hb, hne, hne']
      · simp [lookupP, ha] at h1
        simp [lookupP, hb] at h2
        simp [setP, ha, hb, ih h1 h2]

/-- A key stays present after an in-place write to any key. -/
theorem lookupP_setP_isSome (p : Params) (k k' : String) (v : PVal)
    (h : (lookupP p k).isSome) : (lookupP (setP p k' v) k).isSome := by
  induction p with
  | nil => simp [lookupP] at h
  | cons hd tl ih =>
    obtain ⟨k0, v0⟩ := hd
    by_cases ha : k0 = k'
    · by_cases hb : k0 = k <;> simp_all [lookupP, setP]
    · by_cases hb : k0 = k <;> simp_all [lookupP, setP]

/-- C8 (amended): the architecture's params mapping is NOT always left
unchanged; what holds is that a pooling leaf whose `params` already
carry `padding` in list form (with `stride` and `kernel_size` present,
as required) is restored verbatim — the build's two in-place rewrites of
`stride` and `padding` are undone exactly. -/
theorem c8_pool_params_restored_when_padding_list (dims : ℕ) (params : Params)
    (stride0 ks0 : PVal) (ps : List ℤ)
    (hs : lookupP params "stride" = some stride0)
    (hk : lookupP params "kernel_size" = some ks0)
    (hp : lookupP params "padding" = some (.l ps)) :
    poolLeafParams dims params = some params := by
  rw [poolLeafParams, hs, hk, hp]
  have hsP : (lookupP params "stride").isSome := by rw [hs]; rfl
  have hpP : (lookupP params "padding").isSome := by rw [hp]; rfl
  have hne : ("stride" : String) ≠ "padding" := by decide
  simp only []
  rw [setP_setP_comm (setP params "stride" (.i 1)) "padding" "stride" _ stride0 (by decide)
    (lookupP_setP_isSome _ _ _ _ hpP) (lookupP_setP_isSome _ _ _ _ hsP)]
  rw [setP_setP_same params "stride" (.i 1) stride0]
  rw [setP_lookup_self params "stride" stride0 hs]
  rw [setP_setP_same params "padding" _ (.l ps)]
  rw [setP_lookup_self params "padding" (.l ps) hp]

/-- Witness for C8's amended theorem at a concrete input. -/
theorem c8_pool_params_restored_witness :
    poolLeafParams 2 [("stride", .i 2), ("kernel_size", .i 3), ("padding", .l [1, 1])] =
      some [("stride", .i 2), ("kernel_size", .i 3), ("padding", .l [1, 1])] :=
  c8_pool_params_restored_when_padding_list 2 _ (.i 2) (.i 3) [1, 1]
    (by decide) (by decide) (by decide)

/-- C8 counterexample: a pooling leaf whose spec has no `padding` entry
gains one — after the build the params mapping is
`{kernel_size: 3, stride: 2, padding: [0, 0]}`, not the original
`{kernel_size: 3, stride: 2}`, so the ArchitectureSpec is mutated. -/
theorem c8_counterexample :
    poolLeafParams 2 [("kernel_size", .i 3), ("stride", .i 2)] =
      some [("kernel_size", .i 3), ("stride", .i 2), ("padding", .l [0, 0])] ∧
    some [("kernel_size", PVal.i 3), ("stride", PVal.i 2), ("padding", PVal.l [0, 0])] ≠
      some [("kernel_size", PVal.i 3), ("stride", PVal.i 2)] := by
  constructor
  · rfl
  · decide

/-! ### C4 and C9: duplicate-filter pruning (`_remove_similar_filters`) -/

/-- `np.inner` of two flattened filters. -/
def dotQ (u v : List ℚ) : ℚ :=
  (List.zipWith (fun a b => a * b) u v).sum

/-- Sum of squares of a flattened filter (its squared L2 norm). -/
def sumSqQ (v : List ℚ) : ℚ :=
  (v.map (fun x => x * x)).sum

/-- Embedding of `_compute_similarity_matrix` (`_creator.py:1142-1164`):
`squareform(pdist(filters, metric=np.inner))` — the inner product for
every unordered pair, mirrored into a symmetric matrix with zero
diagonal. -/
def simMat (filters : List (List ℚ)) (i j : ℕ) : ℚ :=
  if i = j then 0
  else if i < j then dotQ (filters.getD i []) (filters.getD j [])
  else dotQ (filters.getD j []) (filters.getD i [])

/-- One iteration of the greedy suppression loop in
`_remove_similar_filters` (`_creator.py:1189-1195`): if filter `i` is
still kept, every filter whose similarity to it is `>= t` is marked not
kept (the diagonal entry is 0, so `i` never suppresses itself). -/
def greedyStep (S : ℕ → ℕ → ℚ) (t : ℚ) (n : ℕ) (keep : List Bool) (i : ℕ) : List Bool :=
  if keep.getD i false then
    (List.range n).map (fun j => if t ≤ S i j then false else keep.getD j false)
  else keep

/-- The final `keep_filter` array of `_remove_similar_filters`: the
greedy loop over `i in range(n)` started from all-`True`. -/
def removeSimilarKeep (S : ℕ → ℕ → ℚ) (n : ℕ) (t : ℚ) : List Bool :=
  (List.range n).foldl (greedyStep S t n) (List.replicate n true)

/-- Number of filters kept by `_remove_similar_filters` at threshold `t`. -/
def keptCount (filters : List (List ℚ)) (t : ℚ) : ℕ :=
  (removeSimilarKeep (simMat filters) filters.length t).count true

/-- The `out_channels` of the rebuilt convolution
(`_creator.py:1197-1210`): the number of selected (kept) filters. -/
def prunedOutChannels (filters : List (List ℚ)) (t : ℚ) : ℕ :=
  keptCount filters t

/-- `getD` of a map over `List.range`. -/
theorem getD_map_range (n : ℕ) (f : ℕ → Bool) (j : ℕ) :
    ((List.range n).map f).getD j false = if j < n then f j else false := by
  by_cases h : j < n
  · rw [List.getD_eq_getElem?_getD]
    simp [List.getElem?_map, List.getElem?_range h, h]
  · rw [List.getD_eq_getElem?_getD]
    rw [List.getElem?_eq_none (by simpa using Nat.le_of_not_lt h)]
    simp [h]

/-- The invariant maintained by the greedy suppression loop once filter 0
has had its turn: the keep array has length `n`, filter 0 is kept, and
every kept filter is either filter 0 itself or dissimilar to it. -/
def KeepInv (S : ℕ → ℕ → ℚ) (t : ℚ) (n : ℕ) (keep : List Bool) : Prop :=
  keep.length = n ∧ keep.getD 0 false = true ∧
    ∀ j, keep.getD j false = true → j = 0 ∨ S 0 j < t

/-- One greedy step preserves `KeepInv` when the similarity matrix is
symmetric with zero diagonal and the threshold is positive. -/
theorem greedyStep_preserves (S : ℕ → ℕ → ℚ) (t : ℚ) (n : ℕ)
    (hsym : ∀ i j, S i j = S j i) (hdiag : ∀ i, S i i = 0) (ht : 0 < t)
    (keep : List Bool) (i : ℕ) (h : KeepInv S t n keep) :
    KeepInv S t n (greedyStep S t n keep i) := by
  obtain ⟨hlen, h0, hprop⟩ := h
  unfold greedyStep
  by_cases hki : keep.getD i false = true
  · simp only [hki, if_true]
    have hn : 0 < n := by
      by_contra hn
      have : keep.length ≤ i := by omega
      rw [List.getD_eq_default _ _ this] at hki
      exact Bool.false_ne_true hki
    have hSi0 : S i 0 < t := by
      rcases hprop i hki with hi0 | hlt
      · rw [hi0, hdiag]; exact ht
      · rw [hsym]; exact hlt
    refine ⟨by simp, ?_, ?_⟩
    · rw [getD_map_range]
      simp only [hn, if_true]
      rw [if_neg (not_le.mpr hSi0)]
      exact h0
    · intro j hj
      rw [getD_map_range] at hj
      by_cases hjn : j < n
      · simp only [hjn, if_true] at hj
        by_cases hS : t ≤ S i j
        · rw [if_pos hS] at hj
          exact absurd hj Bool.false_ne_true
        · rw [if_neg hS] at hj
          exact hprop j hj
      · simp only [hjn, if_false] at hj
        exact absurd hj Bool.false_ne_true
  · simp only [Bool.not_eq_true] at hki
    simp only [hki]
    exact ⟨hlen, h0, hprop⟩

/-- Folding greedy steps over any index list preserves `KeepInv`. -/
theorem foldl_greedyStep_preserves (S : ℕ → ℕ → ℚ) (t : ℚ) (n : ℕ)
    (hsym : ∀ i j, S i j = S j i) (hdiag : ∀ i, S i i = 0) (ht : 0 < t)
    (l : List ℕ) (keep : List Bool) (h : KeepInv S t n keep) :
    KeepInv S t n (l.foldl (greedyStep S t n) keep) := by
  induction l generalizing keep with
  | nil => exact h
  | cons x xs ih => exact ih _ (greedyStep_preserves S t n hsym hdiag ht keep x h)

/-- After the whole greedy loop, `KeepInv` holds (for a nonempty filter
set, symmetric zero-diagonal similarities and a positive threshold). -/
theorem removeSimilarKeep_inv (S : ℕ → ℕ → ℚ) (t : ℚ) (n : ℕ) (hn : 0 < n)
    (hsym : ∀ i j, S i j = S j i) (hdiag : ∀ i, S i i = 0) (ht : 0 < t) :
    KeepInv S t n (removeSimilarKeep S n t) := by
  obtain ⟨m, rfl⟩ : ∃ m, n = m + 1 := ⟨n - 1, by omega⟩
  rw [removeSimilarKeep, List.range_succ_eq_map, List.foldl_cons]
  apply foldl_greedyStep_preserves _ _ _ hsym hdiag ht
  have hrep : (List.replicate (m + 1) true).getD 0 false = true := by
    simp [List.getD_eq_getElem?_getD]
  rw [greedyStep, if_pos hrep]
  refine ⟨by simp, ?_, ?_⟩
  · rw [getD_map_range]
    simp only [Nat.succ_pos, if_true, hdiag]
    rw [if_neg (not_le.mpr ht)]
    exact hrep
  · intro j hj
    rw [getD_map_range] at hj
    by_cases hjn : j < m + 1
    · simp only [hjn, if_true] at hj
      by_cases hS : t ≤ S 0 j
      · rw [if_pos hS] at hj
        exact absurd hj Bool.false_ne_true
      · exact Or.inr (not_le.mp hS)
    · simp only [hjn, if_false] at hj
      exact absurd hj Bool.false_ne_true

/-- The embedded similarity matrix is symmetric. -/
theorem simMat_symm (filters : List (List ℚ)) (i j : ℕ) :
    simMat filters i j = simMat filters j i := by
  unfold simMat
  rcases lt_trichotomy i j with h | h | h
  · rw [if_neg (Nat.ne_of_lt h), if_pos h, if_neg (Nat.ne_of_gt h), if_neg (Nat.lt_asymm h)]
  · rw [h]
  · rw [if_neg (Nat.ne_of_gt h), if_neg (Nat.lt_asymm h), if_neg (Nat.ne_of_lt h), if_pos h]

/-- The embedded similarity matrix has zero diagonal. -/
theorem simMat_diag (filters : List (List ℚ)) (i : ℕ) : simMat filters i i = 0 := by
  simp [simMat]

/-- A keep array satisfying `KeepInv` has at least one `true`. -/
theorem KeepInv_one_le_count (S : ℕ → ℕ → ℚ) (t : ℚ) (n : ℕ) (keep : List Bool)
    (h : KeepInv S t n keep) (hn : 0 < n) : 1 ≤ keep.count true := by
  obtain ⟨hlen, h0, _⟩ := h
  have hmem : true ∈ keep := by
    have hlt : 0 < keep.length := by omega
    have := List.getD_eq_getElem keep false hlt
    rw [h0] at this
    exact this ▸ List.getElem_mem _
  exact List.count_pos_iff.mpr hmem

/-- C9: for a nonempty filter set and any `similarity_level` in `(0, 1]`,
the greedy pruning of `_remove_similar_filters` always keeps the filter
at index 0, and the rebuilt convolution has at least one output channel:
the zero-surviving-filters outcome is unreachable. -/
theorem c9_filter_zero_always_kept (filters : List (List ℚ)) (t : ℚ)
    (hne : filters ≠ []) (ht0 : 0 < t) (ht1 : t ≤ 1) :
    (removeSimilarKeep (simMat filters) filters.length t).getD 0 false = true ∧
    1 ≤ prunedOutChannels filters t := by
  have hn : 0 < filters.length := List.length_pos.mpr hne
  have hinv := removeSimilarKeep_inv (simMat filters) t filters.length hn
    (simMat_symm filters) (simMat_diag filters) ht0
  exact ⟨hinv.2.1, KeepInv_one_le_count _ _ _ _ hinv hn⟩

/-- Witness for C9's theorem at a concrete input. -/
theorem c9_filter_zero_always_kept_witness :
    (removeSimilarKeep (simMat [[(1 : ℚ), 0], [0, 1]]) 2 (85 / 100)).getD 0 false = true ∧
    1 ≤ prunedOutChannels [[(1 : ℚ), 0], [0, 1]] (85 / 100) := by
  have h := c9_filter_zero_always_kept [[(1 : ℚ), 0], [0, 1]] (85 / 100)
    (by decide) (by norm_num) (by norm_num)
  simpa using h

/-- C4 (amended): pruning is NOT monotone in the threshold in either
direction (see the counterexample); what does hold for every nonempty
filter set and every threshold in `(0, 1]` is that the kept-filter count
lies between 1 and the total number of filters. -/
theorem c4_kept_count_bounds (filters : List (List ℚ)) (t : ℚ)
    (hne : filters ≠ []) (ht0 : 0 < t) (ht1 : t ≤ 1) :
    1 ≤ keptCount filters t ∧ keptCount filters t ≤ filters.length := by
  have hn : 0 < filters.length := List.length_pos.mpr hne
  have hinv := removeSimilarKeep_inv (simMat filters) t filters.length hn
    (simMat_symm filters) (simMat_diag filters) ht0
  constructor
  · exact KeepInv_one_le_count _ _ _ _ hinv hn
  · calc (removeSimilarKeep (simMat filters) filters.length t).count true
        ≤ (removeSimilarKeep (simMat filters) filters.length t).length :=
          List.count_le_length _ _
      _ = filters.length := hinv.1

/-- Witness for C4's amended theorem at a concrete input. -/
theorem c4_kept_count_bounds_witness :
    1 ≤ keptCount [[(1 : ℚ), 0], [4 / 5, 3 / 5]] (1 / 2) ∧
    keptCount [[(1 : ℚ), 0], [4 / 5, 3 / 5]] (1 / 2) ≤ 2 :=
  c4_kept_count_bounds [[(1 : ℚ), 0], [4 / 5, 3 / 5]] (1 / 2)
    (by decide) (by norm_num) (by norm_num)

/-- C4 counterexample: two concrete unit-norm filter sets on which the
claimed monotonicity fails in both readings.  With filters
`[(1,0), (4/5,3/5)]` and `t1 = 1/2 ≤ t2 = 9/10` the kept count at `t1`
is 1 < 2, refuting the claim's `kept(t1) ≥ kept(t2)`; with four
unit-norm filters and `t1 = 1/2 ≤ t2 = 4/5` the kept count at `t1` is
3 > 2, refuting the reversed direction as well. -/
theorem c4_counterexample :
    sumSqQ [(1 : ℚ), 0] = 1 ∧ sumSqQ [(4 : ℚ) / 5, 3 / 5] = 1 ∧
    (0 : ℚ) < 1 / 2 ∧ (1 / 2 : ℚ) ≤ 9 / 10 ∧ (9 / 10 : ℚ) ≤ 1 ∧
    keptCount [[(1 : ℚ), 0], [4 / 5, 3 / 5]] (1 / 2) = 1 ∧
    keptCount [[(1 : ℚ), 0], [4 / 5, 3 / 5]] (9 / 10) = 2 ∧
    ¬ (keptCount [[(1 : ℚ), 0], [4 / 5, 3 / 5]] (9 / 10) ≤
        keptCount [[(1 : ℚ), 0], [4 / 5, 3 / 5]] (1 / 2)) ∧
    sumSqQ [(3 : ℚ) / 5, 0, 4 / 5] = 1 ∧ sumSqQ [(1 : ℚ), 0, 0] = 1 ∧
    sumSqQ [(4 : ℚ) / 5, 3 / 5, 0] = 1 ∧ sumSqQ [(4 : ℚ) / 5, -3 / 5, 0] = 1 ∧
    (1 / 2 : ℚ) ≤ 4 / 5 ∧ (4 / 5 : ℚ) ≤ 1 ∧
    keptCount [[(3 : ℚ) / 5, 0, 4 / 5], [1, 0, 0], [4 / 5, 3 / 5, 0], [4 / 5, -3 / 5, 0]] (1 / 2) = 3 ∧
    keptCount [[(3 : ℚ) / 5, 0, 4 / 5], [1, 0, 0], [4 / 5, 3 / 5, 0], [4 / 5, -3 / 5, 0]] (4 / 5) = 2 ∧
    ¬ (keptCount [[(3 : ℚ) / 5, 0, 4 / 5], [1, 0, 0], [4 / 5, 3 / 5, 0], [4 / 5, -3 / 5, 0]] (1 / 2) ≤
        keptCount [[(3 : ℚ) / 5, 0, 4 / 5], [1, 0, 0], [4 / 5, 3 / 5, 0], [4 / 5, -3 / 5, 0]] (4 / 5)) := by
  have e1 : keptCount [[(1 : ℚ), 0], [4 / 5, 3 / 5]] (1 / 2) = 1 := by
    norm_num [keptCount, removeSimilarKeep, greedyStep, simMat, dotQ, List.range_succ,
      List.getD_cons_zero, List.getD_cons_succ, List.count_cons]
  have e2 : keptCount [[(1 : ℚ), 0], [4 / 5, 3 / 5]] (9 / 10) = 2 := by
    norm_num [keptCount, removeSimilarKeep, greedyStep, simMat, dotQ, List.range_succ,
      List.getD_cons_zero, List.getD_cons_succ, List.count_cons]
  have e3 : keptCount [[(3 : ℚ) / 5, 0, 4 / 5], [1, 0, 0], [4 / 5, 3 / 5, 0], [4 / 5, -3 / 5, 0]]
      (1 / 2) = 3 := by
    norm_num [keptCount, removeSimilarKeep, greedyStep, simMat, dotQ, List.range_succ,
      List.getD_cons_zero, List.getD_cons_succ, List.count_cons]
  have e4 : keptCount [[(3 : ℚ) / 5, 0, 4 / 5], [1, 0, 0], [4 / 5, 3 / 5, 0], [4 / 5, -3 / 5, 0]]
      (4 / 5) = 2 := by
    norm_num [keptCount, removeSimilarKeep, greedyStep, simMat, dotQ, List.range_succ,
      List.getD_cons_zero, List.getD_cons_succ, List.count_cons]
  refine ⟨by norm_num [sumSqQ], by norm_num [sumSqQ], by norm_num, by norm_num, by norm_num,
    e1, e2, ?_, by norm_num [sumSqQ], by norm_num [sumSqQ], by norm_num [sumSqQ],
    by norm_num [sumSqQ], by norm_num, by norm_num, e3, e4, ?_⟩
  · rw [e1, e2]
    omega
  · rw [e3, e4]
    omega

/-! ### C1: labels of extracted patches (`_generate_patches`, `_prepare_markers`) -/

/-- Value of a marker map at a coordinate (reads 0 outside the map). -/
def mval (m : MarkerMap) (x y : ℕ) : ℤ :=
  (m.getD x []).getD y 0

/-- Row-major coordinates of the nonzero entries of a marker map
(`np.where(image_markers != 0)`). -/
def nonzeroCoords (m : MarkerMap) : List (ℕ × ℕ) :=
  (List.range m.length).bind (fun x =>
    (List.range ((m.getD x []).length)).filterMap (fun y =>
      if mval m x y ≠ 0 then some (x, y) else none))

/-- Embedding of the dead helper `_prepare_markers` (`_creator.py:693-724`,
never called by the build pipeline): per image, the nonzero coordinates
and their labels, shifted by `-1` ONLY when the map's maximum label
exceeds 1 (`labels = m[indices]-1 if max_label > 1 else m[indices]`).
This is the only place the spec's binary-marker special case exists in
the source. -/
def prepareMarkers (markers : List MarkerMap) : List (List ℕ × List ℕ × List ℤ) :=
  markers.map (fun m =>
    let coords := nonzeroCoords m
    let maxLabel := (m.bind id).foldr max 0
    let vals := coords.map (fun xy => mval m xy.1 xy.2)
    (coords.map Prod.fst, coords.map Prod.snd,
      if 1 < maxLabel then vals.map (fun v => v - 1) else vals))

/-- Pixel of the symmetrically zero-padded image
(`np.pad(image, padding, mode='constant', constant_values=0)`), read at
padded coordinates `(r, s)`, channel `c`. -/
def paddedGet {α : Type} [Zero α] (img : ImageT α) (ph pw r s c : ℕ) : α :=
  if ph ≤ r ∧ r < ph + img.length ∧ pw ≤ s ∧ s < pw + (img.headD []).length then
    ((img.getD (r - ph) []).getD (s - pw) []).getD c 0
  else 0

/-- The patch gathered for the marker at `(x, y)`: the `view_as_windows`
window of the padded image anchored at `(x, y)`, sub-sampled at stride
`dh`/`dw` to realize dilation (`_creator.py:925-969`; the source skips
the sub-sampling when dilation is 1, which is the identity).  `khs`/`kws`
are the numbers of sampled rows/columns. -/
def patchAt {α : Type} [Zero α] (img : ImageT α) (cin ph pw khs kws dh dw x y : ℕ) :
    PatchT α :=
  (List.range khs).map (fun i =>
    (List.range kws).map (fun j =>
      (List.range cin).map (fun c => paddedGet img ph pw (x + i * dh) (y + j * dw) c)))

/-- The per-image body of the loop in `_generate_patches`
(`_creator.py:918-969`): nonzero marker coordinates in row-major order,
labels `marker_value - 1` (unconditionally), the in-range mask applied
to coordinates and labels alike, and one gathered patch per surviving
coordinate. -/
def imagePatchesLabels {α : Type} [Zero α] (cin ph pw khs kws dh dw : ℕ)
    (img : ImageT α) (m : MarkerMap) : List (PatchT α) × List ℤ :=
  let coords := nonzeroCoords m
  let labeled := coords.map (fun xy => (xy, mval m xy.1 xy.2 - 1))
  let kept := labeled.filter
    (fun cl => decide (cl.1.1 < img.length ∧ cl.1.2 < (img.headD []).length))
  (kept.map (fun cl => patchAt img cin ph pw khs kws dh dw cl.1.1 cl.1.2),
    kept.map (fun cl => cl.2))

/-- One iteration of the image loop of `_generate_patches`: images whose
marker map has zero rows are skipped (`if len(image_markers) == 0: continue`);
otherwise the patches and labels are appended to the accumulator
(`all_patches`/`all_labels`, initially `None`). -/
def genStep {α : Type} [Zero α] (cin ph pw khs kws dh dw : ℕ)
    (acc : Option (List (PatchT α) × List ℤ)) (im : ImageT α × MarkerMap) :
    Option (List (PatchT α) × List ℤ) :=
  if im.2.length = 0 then acc
  else
    let pl := imagePatchesLabels cin ph pw khs kws dh dw im.1 im.2
    match acc with
    | none => some pl
    | some (ps, ls) => some (ps ++ pl.1, ls ++ pl.2)

/-- Embedding of `_generate_patches` (`_creator.py:860-978`), 2d path
(`is_2d`; the 3d path computes labels by the same expression).  Images
whose marker map has zero rows are skipped; if every image is skipped the
accumulator stays `None` and the final `all_patches.squeeze()` raises —
modelled as `none`.  The final numpy `squeeze` (dropping unit axes of the
patch array, the identity whenever no axis is 1) is not modelled; labels
are unaffected by it. -/
def generatePatches {α : Type} [Zero α] (images : List (ImageT α))
    (markers : List MarkerMap) (in_channels : ℕ) (kernel_size dilation : List ℕ) :
    Option (List (PatchT α) × List ℤ) :=
  let kh := kernel_size.getD 0 0
  let kw := kernel_size.getD 1 0
  let dh := dilation.getD 0 0
  let dw := dilation.getD 1 0
  let dkh := kh + (dh - 1) * (kh - 1)
  let dkw := kw + (dw - 1) * (kw - 1)
  let ph := dkh / 2
  let pw := dkw / 2
  let khs := (dkh + dh - 1) / dh
  let kws := (dkw + dw - 1) / dw
  (images.zip markers).foldl (genStep in_channels ph pw khs kws dh dw) none

/-- The labels `_generate_patches` produces, written directly: for every
(image, marker-map) pair with a nonempty map, the in-range nonzero
marker values in row-major order, each shifted by `-1` — with no
special case for binary markers. -/
def generatePatchesLabelsSpec {α : Type} (images : List (ImageT α))
    (markers : List MarkerMap) : List ℤ :=
  (images.zip markers).bind (fun im =>
    if im.2.length = 0 then []
    else ((nonzeroCoords im.2).filter
        (fun xy => decide (xy.1 < im.1.length ∧ xy.2 < (im.1.headD []).length))).map
      (fun xy => mval im.2 xy.1 xy.2 - 1))

/-- Membership in `nonzeroCoords`: the coordinate is in range and the
marker value there is nonzero. -/
theorem mem_nonzeroCoords (m : MarkerMap) (x y : ℕ) (h : (x, y) ∈ nonzeroCoords m) :
    x < m.length ∧ y < (m.getD x []).length ∧ mval m x y ≠ 0 := by
  unfold nonzeroCoords at h
  simp only [List.mem_bind, List.mem_filterMap, List.mem_range] at h
  obtain ⟨x', hx', y', hy', heq⟩ := h
  by_cases hnz : mval m x' y' ≠ 0
  · rw [if_pos hnz] at heq
    obtain ⟨rfl, rfl⟩ := Prod.mk.inj (Option.some.inj heq)
    exact ⟨hx', hy', hnz⟩
  · rw [if_neg hnz] at heq
    exact absurd heq (Option.some_ne_none _).symm

/-- Projecting labels out of the mask-filtered `(coordinate, label)`
pairs is the same as filtering the coordinates first and labelling the
survivors. -/
theorem map_snd_filter_map_pair {β : Type} (l : List (ℕ × ℕ)) (f : ℕ × ℕ → β)
    (p : ℕ × ℕ → Bool) :
    ((l.map (fun xy => (xy, f xy))).filter (fun cl => p cl.1)).map (fun cl => cl.2) =
      (l.filter p).map f := by
  induction l with
  | nil => rfl
  | cons hd tl ih =>
    by_cases h : p hd = true <;> simp [List.filter_cons, h, ih]

/-- The labels component of `imagePatchesLabels`, in direct form. -/
theorem imagePatchesLabels_snd {α : Type} [Zero α] (cin ph pw khs kws dh dw : ℕ)
    (img : ImageT α) (m : MarkerMap) :
    (imagePatchesLabels cin ph pw khs kws dh dw img m).2 =
      ((nonzeroCoords m).filter
        (fun xy => decide (xy.1 < img.length ∧ xy.2 < (img.headD []).length))).map
        (fun xy => mval m xy.1 xy.2 - 1) := by
  unfold imagePatchesLabels
  exact map_snd_filter_map_pair (nonzeroCoords m) (fun xy => mval m xy.1 xy.2 - 1)
    (fun xy => decide (xy.1 < img.length ∧ xy.2 < (img.headD []).length))

/-- Folding `genStep` from a `some` accumulator appends the per-image
patches and labels of the remaining images. -/
theorem genStep_foldl_some {α : Type} [Zero α] (cin ph pw khs kws dh dw : ℕ)
    (L : List (ImageT α × MarkerMap)) (ps : List (PatchT α)) (ls : List ℤ) :
    L.foldl (genStep cin ph pw khs kws dh dw) (some (ps, ls)) =
      some (ps ++ L.bind (fun im => if im.2.length = 0 then []
              else (imagePatchesLabels cin ph pw khs kws dh dw im.1 im.2).1),
            ls ++ L.bind (fun im => if im.2.length = 0 then []
              else (imagePatchesLabels cin ph pw khs kws dh dw im.1 im.2).2)) := by
  induction L generalizing ps ls with
  | nil => simp
  | cons hd tl ih =>
    rw [List.foldl_cons]
    have ebind : ∀ {β : Type} (f : ImageT α × MarkerMap → List β),
        (hd :: tl).bind f = f hd ++ tl.bind f := fun _ => rfl
    by_cases h : hd.2.length = 0
    · rw [show genStep cin ph pw khs kws dh dw (some (ps, ls)) hd = some (ps, ls) by
        simp only [genStep, if_pos h]]
      rw [ih, ebind, ebind, if_pos h, if_pos h, List.nil_append, List.nil_append]
    · rw [show genStep cin ph pw khs kws dh dw (some (ps, ls)) hd =
          some (ps ++ (imagePatchesLabels cin ph pw khs kws dh dw hd.1 hd.2).1,
                ls ++ (imagePatchesLabels cin ph pw khs kws dh dw hd.1 hd.2).2) by
        simp only [genStep, if_neg h]]
      rw [ih, ebind, ebind, if_neg h, if_neg h, List.append_assoc, List.append_assoc]

/-- Folding `genStep` from `None`: if the result is a `some`, its labels
are exactly the concatenated per-image labels. -/
theorem genStep_foldl_none {α : Type} [Zero α] (cin ph pw khs kws dh dw : ℕ)
    (L : List (ImageT α × MarkerMap)) (ps : List (PatchT α)) (ls : List ℤ)
    (h : L.foldl (genStep cin ph pw khs kws dh dw) none = some (ps, ls)) :
    ls = L.bind (fun im => if im.2.length = 0 then []
          else (imagePatchesLabels cin ph pw khs kws dh dw im.1 im.2).2) := by
  induction L generalizing ps ls with
  | nil => simp at h
  | cons hd tl ih =>
    have ebind : ∀ {β : Type} (f : ImageT α × MarkerMap → List β),
        (hd :: tl).bind f = f hd ++ tl.bind f := fun _ => rfl
    by_cases hh : hd.2.length = 0
    · rw [List.foldl_cons, show genStep cin ph pw khs kws dh dw none hd = none by
        simp only [genStep, if_pos hh]] at h
      rw [ih ps ls h, ebind, if_pos hh, List.nil_append]
    · rw [List.foldl_cons, show genStep cin ph pw khs kws dh dw none hd =
          some ((imagePatchesLabels cin ph pw khs kws dh dw hd.1 hd.2).1,
                (imagePatchesLabels cin ph pw khs kws dh dw hd.1 hd.2).2) by
        simp only [genStep, if_neg hh]] at h
      rw [genStep_foldl_some] at h
      obtain ⟨h1, h2⟩ := Prod.mk.inj (Option.some.inj h)
      rw [← h2, ebind, if_neg hh]

/-- Every element of a list is at most its `foldr max` against any base. -/
theorem le_foldr_max (l : List ℤ) (b : ℤ) (a : ℤ) (h : a ∈ l) :
    a ≤ l.foldr max b := by
  induction l with
  | nil => simp at h
  | cons hd tl ih =>
    rcases List.mem_cons.mp h with rfl | h'
    · exact le_max_left _ _
    · exact (ih h').trans (le_max_right _ _)

/-- C1 (amended): the labels returned by `_generate_patches` are ALWAYS
the marker values minus one — the in-range nonzero marker values in
image order, row-major within an image, each shifted by `-1`, with no
special case for binary marker maps; consequently, when the markers'
maximum label is 1 (and labels are nonnegative) every returned label is
0 (not the unchanged value 1).  The `max == 1` no-shift rule exists only
in `_prepare_markers` (`prepareMarkers` here), which the patch-extraction
path never calls. -/
theorem c1_labels_always_shifted {α : Type} [Zero α] (images : List (ImageT α))
    (markers : List MarkerMap) (cin : ℕ) (ks dil : List ℕ)
    (ps : List (PatchT α)) (ls : List ℤ)
    (hgen : generatePatches images markers cin ks dil = some (ps, ls)) :
    ls = generatePatchesLabelsSpec images markers ∧
    (markersMax markers ≤ 1 → (∀ m ∈ markers, ∀ row ∈ m, ∀ v ∈ row, 0 ≤ v) →
      ∀ l ∈ ls, l = 0) := by
  unfold generatePatches at hgen
  have hls := genStep_foldl_none _ _ _ _ _ _ _ _ ps ls hgen
  have hspec : ls = generatePatchesLabelsSpec images markers := by
    rw [hls, generatePatchesLabelsSpec]
    apply List.bind_congr
    intro im _
    by_cases h : im.2.length = 0
    · simp [h]
    · simp only [h, if_false]
      exact imagePatchesLabels_snd _ _ _ _ _ _ _ im.1 im.2
  refine ⟨hspec, ?_⟩
  intro hmax hnonneg l hl
  rw [hspec] at hl
  unfold generatePatchesLabelsSpec at hl
  simp only [List.mem_bind] at hl
  obtain ⟨im, him, hlmem⟩ := hl
  by_cases h : im.2.length = 0
  · simp [h] at hlmem
  · simp only [h, if_false, List.mem_map, List.mem_filter] at hlmem
    obtain ⟨xy, ⟨hxy, -⟩, rfl⟩ := hlmem
    obtain ⟨hx, hy, hnz⟩ := mem_nonzeroCoords im.2 xy.1 xy.2 (by
      cases xy
      exact hxy)
    have hmem : im.2 ∈ markers := (List.of_mem_zip him).2
    have hrow : im.2.getD xy.1 [] ∈ im.2 := by
      rw [List.getD_eq_getElem im.2 [] hx]
      exact List.getElem_mem _
    have hv : mval im.2 xy.1 xy.2 ∈ im.2.getD xy.1 [] := by
      rw [mval, List.getD_eq_getElem _ 0 hy]
      exact List.getElem_mem _
    have h0 : 0 ≤ mval im.2 xy.1 xy.2 := hnonneg im.2 hmem _ hrow _ hv
    have hflat : mval im.2 xy.1 xy.2 ∈ (markers.bind id).bind id := by
      simp only [List.mem_bind, id]
      exact ⟨im.2.getD xy.1 [], ⟨im.2, hmem, hrow⟩, hv⟩
    have hle : mval im.2 xy.1 xy.2 ≤ markersMax markers :=
      le_foldr_max _ 0 _ hflat
    omega

/-- Witness for C1's amended theorem at a concrete input: one 1x1x1
image, one marker of value 1 at the origin, kernel 1, dilation 1. -/
theorem c1_labels_always_shifted_witness :
    [(0 : ℤ)] = generatePatchesLabelsSpec ([[[[(1 : ℚ)]]]] : List (ImageT ℚ)) [[[1]]] ∧
    (markersMax [[[1]]] ≤ 1 →
      (∀ m ∈ ([[[1]]] : List MarkerMap), ∀ row ∈ m, ∀ v ∈ row, 0 ≤ v) →
      ∀ l ∈ [(0 : ℤ)], l = 0) :=
  c1_labels_always_shifted [[[[(1 : ℚ)]]]] [[[1]]] 1 [1, 1] [1, 1] [[[[(1 : ℚ)]]]] [0] rfl

/-- C1 counterexample: a binary marker map (max value 1) on a constant
3x3x1 image.  The claim says the returned label equals the marker value
unchanged (1); `_generate_patches` returns 0 — the `-1` shift is applied
even for binary markers. -/
theorem c1_counterexample :
    (generatePatches ([List.replicate 3 (List.replicate 3 [(1 : ℚ)])] : List (ImageT ℚ))
        [[[0, 0, 0], [0, 1, 0], [0, 0, 0]]] 1 [3, 3] [1, 1]).map (fun r => r.2) =
      some [0] ∧
    markersMax [[[0, 0, 0], [0, 1, 0], [0, 0, 0]]] = 1 ∧
    [(0 : ℤ)] ≠ [1] := by
  refine ⟨rfl, by decide, by decide⟩

/-! ### C3: per-label clustering counts (`_kmeans_roots`) -/

/-- Sorted insertion (auxiliary for `uniqueSorted`). -/
def insertSorted (a : ℤ) (l : List ℤ) : List ℤ :=
  match l with
  | [] => [a]
  | b :: t => if a ≤ b then a :: b :: t else b :: insertSorted a t

/-- `np.unique(labels)`: the distinct labels in ascending order.  The
theorems below use only that its elements are exactly the distinct
labels. -/
def uniqueSorted (l : List ℤ) : List ℤ :=
  l.dedup.foldr insertSorted []

/-- Boolean-mask selection `patches[label == labels]`. -/
def labelSelect {V : Type} (patches : List V) (labels : List ℤ) (l : ℤ) : List V :=
  ((patches.zip labels).filter (fun pl => decide (pl.2 = l))).map Prod.fst

/-- The per-label body of the loop in `_kmeans_roots`
(`_creator.py:1004-1025`): when the label has strictly more patches than
`n_clusters_per_label`, run k-means with `n_clusters_per_label` clusters
and take the cluster centers; otherwise every patch of the label is its
own root.  `km k data` stands for
`KMeans(n_clusters=k, max_iter=100, tol=0.001).fit(data).cluster_centers_`;
the flattening `reshape(n, -1)` around the call and the final reshape
back are the identity at this list-of-kernels representation. -/
def kmeansRootsForLabel {V : Type} (km : ℕ → List V → List V)
    (patches : List V) (labels : List ℤ) (k : ℕ) (l : ℤ) : List V :=
  let pol := labelSelect patches labels l
  if k < pol.length then km k pol else pol

/-- Embedding of `_kmeans_roots` (`_creator.py:980-1028`): concatenation
of the per-label roots over `np.unique(labels)`. -/
def kmeansRoots {V : Type} (km : ℕ → List V → List V)
    (patches : List V) (labels : List ℤ) (k : ℕ) : List V :=
  (uniqueSorted labels).bind (kmeansRootsForLabel km patches labels k)

/-- The mask `label == labels` selects exactly `labels.count l` patches
when patches and labels are aligned. -/
theorem labelSelect_length {V : Type} (patches : List V) (labels : List ℤ) (l : ℤ)
    (h : patches.length = labels.length) :
    (labelSelect patches labels l).length = labels.count l := by
  induction patches generalizing labels with
  | nil =>
    cases labels with
    | nil => simp [labelSelect]
    | cons a as => simp at h
  | cons p ps ih =>
    cases labels with
    | nil => simp at h
    | cons a as =>
      have h' : ps.length = as.length := by simpa using h
      have hih := ih as h'
      simp only [labelSelect, List.length_map] at hih
      by_cases ha : a = l
      · simp [labelSelect, List.filter_cons, ha, List.count_cons, hih]
      · simp [labelSelect, List.filter_cons, ha, List.count_cons, hih]

/-- C3: in per-label clustering, a label with strictly more patches than
`clusters_per_label` contributes exactly `clusters_per_label` roots (the
k-means centers), and a label with fewer patches contributes one root
per patch.  `km` is constrained only by sklearn's contract that
`cluster_centers_` has exactly `n_clusters` rows (requiring
`n_clusters <= n_samples`). -/
theorem c3_per_label_cluster_counts {V : Type} (km : ℕ → List V → List V)
    (hkm : ∀ (k : ℕ) (d : List V), k ≤ d.length → (km k d).length = k)
    (patches : List V) (labels : List ℤ) (k : ℕ) (l : ℤ)
    (hlen : patches.length = labels.length) :
    (k < labels.count l → (kmeansRootsForLabel km patches labels k l).length = k) ∧
    (labels.count l < k →
      (kmeansRootsForLabel km patches labels k l).length = labels.count l) := by
  have hsel := labelSelect_length patches labels l hlen
  constructor
  · intro hgt
    rw [kmeansRootsForLabel, if_pos (by omega)]
    exact hkm k _ (by omega)
  · intro hlt
    rw [kmeansRootsForLabel, if_neg (by omega)]
    exact hsel

/-- Witness for C3's theorem at a concrete input: three 1-dimensional
patches, labels `[0, 0, 1]`, one cluster per label.  Label 0 has two
patches (> 1), so it contributes exactly one centroid. -/
theorem c3_per_label_cluster_counts_witness :
    (1 < ([(0 : ℤ), 0, 1].count 0) →
      (kmeansRootsForLabel (fun k d => d.take k) [[(1 : ℕ)], [2], [3]] [0, 0, 1] 1 0).length = 1) ∧
    (([(0 : ℤ), 0, 1].count 0) < 1 →
      (kmeansRootsForLabel (fun k d => d.take k) [[(1 : ℕ)], [2], [3]] [0, 0, 1] 1 0).length =
        [(0 : ℤ), 0, 1].count 0) :=
  c3_per_label_cluster_counts (fun k d => d.take k)
    (fun k d h => by rw [List.length_take]; omega)
    [[(1 : ℕ)], [2], [3]] [0, 0, 1] 1 0 rfl

/-! ### C6: kernel normalization on the marker path
(`_calculate_convNd_weights`) -/

/-- Sum of squared entries of a flattened kernel. -/
def sumSq (v : List ℝ) : ℝ :=
  (v.map (fun x => x ^ 2)).sum

/-- `np.linalg.norm` of a flattened kernel. -/
noncomputable def l2norm (v : List ℝ) : ℝ :=
  Real.sqrt (sumSq v)

/-- The final normalization step of `_calculate_convNd_weights`
(`_creator.py:1069-1075`): each flattened kernel is divided by its L2
norm plus `0.00001`. -/
noncomputable def normalizeKernelFlat (v : List ℝ) : List ℝ :=
  v.map (fun x => x / (l2norm v + 1 / 100000))

/-- Mean over axes `(0, 1)` of the patch array —
`patches.mean(axis=tuple(range(len(kernel_size))), keepdims=True)` at
`_creator.py:1059-1060` for a 2d kernel: axes `(0, 1)` of the
post-squeeze `(N, kh, kw, C)` array are the patch-index and first
spatial axes, leaving one value per `(column, channel)`. -/
noncomputable def meanJC (patches : List (PatchT ℝ)) (j c : ℕ) : ℝ :=
  ((patches.map (fun P => (P.map (fun row => (row.getD j []).getD c 0)).sum)).sum) /
    (((patches.length * (patches.headD []).length : ℕ) : ℝ))

/-- `np.std` over the same axes: the population standard deviation. -/
noncomputable def stdJC (patches : List (PatchT ℝ)) (j c : ℕ) : ℝ :=
  Real.sqrt
    (((patches.map (fun P => (P.map (fun row =>
          ((row.getD j []).getD c 0 - meanJC patches j c) ^ 2)).sum)).sum) /
      (((patches.length * (patches.headD []).length : ℕ) : ℝ)))

/-- The standardization `(patches - mean) / (std + default_std)` of
`_creator.py:1063`, element-wise with the `(1, 1, kw, C)` mean/std
broadcast back over the patch array. -/
noncomputable def standardizePatches (patches : List (PatchT ℝ)) (default_std : ℝ) :
    List (PatchT ℝ) :=
  patches.map (fun P => P.map (fun row =>
    (List.range row.length).map (fun j =>
      (List.range ((row.getD j []).length)).map (fun c =>
        ((row.getD j []).getD c 0 - meanJC patches j c) /
          (stdJC patches j c + default_std)))))

/-- Row-major flattening of one patch (`reshape(n, -1)` row). -/
def flattenPatch (P : PatchT ℝ) : List ℝ :=
  (P.map (fun row => row.join)).join

/-- Embedding of `_calculate_convNd_weights` (`_creator.py:1031-1076`),
2d path: extract patches and labels, standardize, per-label cluster with
`_kmeans_roots` on the flattened patches, then L2-normalize every root
with the `+ 0.00001` guard.  `none` models the exception raised when no
image contributed markers (`all_patches` stays `None`).  Kernels are
kept in flattened form; the source's final reshape back to
`(n, kh, kw, C)` re-nests each row bijectively. -/
noncomputable def calculateConvWeights (km : ℕ → List (List ℝ) → List (List ℝ))
    (images : List (ImageT ℝ)) (markers : List MarkerMap)
    (in_channels : ℕ) (kernel_size dilation : List ℕ)
    (number_of_kernels_per_marker : ℕ) (default_std : ℝ) :
    Option (List (List ℝ)) :=
  match generatePatches images markers in_channels kernel_size dilation with
  | none => none
  | some pl =>
    let std_patches := standardizePatches pl.1 default_std
    let roots := kmeansRoots km (std_patches.map flattenPatch) pl.2
      number_of_kernels_per_marker
    some (roots.map normalizeKernelFlat)

/-- `sumSq` on a cons. -/
theorem sumSq_cons (x : ℝ) (v : List ℝ) : sumSq (x :: v) = x ^ 2 + sumSq v := by
  simp [sumSq]

/-- `sumSq` of an elementwise division. -/
theorem sumSq_map_div (v : List ℝ) (c : ℝ) :
    sumSq (v.map (fun x => x / c)) = sumSq v / c ^ 2 := by
  induction v with
  | nil => simp [sumSq]
  | cons x xs ih =>
    rw [List.map_cons, sumSq_cons, sumSq_cons, ih, div_pow, div_add_div_same]

/-- Sums of squares are nonnegative. -/
theorem sumSq_nonneg (v : List ℝ) : 0 ≤ sumSq v := by
  apply List.sum_nonneg
  intro x hx
  obtain ⟨y, -, rfl⟩ := List.mem_map.mp hx
  exact sq_nonneg y

/-- The L2 norm of a kernel after the `+ 0.00001` normalization is
`n / (n + 0.00001)` where `n` is its pre-normalization norm. -/
theorem l2norm_normalizeKernelFlat (v : List ℝ) :
    l2norm (normalizeKernelFlat v) = l2norm v / (l2norm v + 1 / 100000) := by
  have h0 : 0 ≤ l2norm v := Real.sqrt_nonneg _
  have hpos : (0 : ℝ) < l2norm v + 1 / 100000 := by linarith
  rw [normalizeKernelFlat, l2norm, sumSq_map_div, Real.sqrt_div (sumSq_nonneg v),
    Real.sqrt_sq hpos.le]
  rfl

/-- C6 (amended): every kernel produced by the marker path is a root
normalized by `norm + 0.00001`, so its L2 norm equals
`n / (n + 0.00001)` — strictly below 1 (within `10^-5` of 1 for roots of
norm at least 1, but 0, not 1, for roots that standardize to zero). -/
theorem c6_kernel_norms (km : ℕ → List (List ℝ) → List (List ℝ))
    (images : List (ImageT ℝ)) (markers : List MarkerMap)
    (cin : ℕ) (ks dil : List ℕ) (nk : ℕ) (σ : ℝ) (ws : List (List ℝ))
    (hcalc : calculateConvWeights km images markers cin ks dil nk σ = some ws) :
    ∀ w ∈ ws, ∃ r : List ℝ,
      w = normalizeKernelFlat r ∧
      l2norm w = l2norm r / (l2norm r + 1 / 100000) ∧
      l2norm w < 1 := by
  rw [calculateConvWeights] at hcalc
  cases hgen : generatePatches images markers cin ks dil with
  | none => rw [hgen] at hcalc; exact absurd hcalc (by simp)
  | some pl =>
    rw [hgen] at hcalc
    obtain rfl := (Option.some.inj hcalc).symm
    intro w hw
    obtain ⟨r, -, rfl⟩ := List.mem_map.mp hw
    refine ⟨r, rfl, l2norm_normalizeKernelFlat r, ?_⟩
    rw [l2norm_normalizeKernelFlat r]
    have h0 : 0 ≤ l2norm r := Real.sqrt_nonneg _
    rw [div_lt_one (by linarith)]
    linarith

/-- A concrete constant input: one 3x3x2 image of ones. -/
noncomputable def cexImages : List (ImageT ℝ) :=
  [List.replicate 3 (List.replicate 3 [1, 1])]

/-- Two markers of value 1 (binary marker map) at interior positions. -/
def cexMarkers : List MarkerMap :=
  [[[0, 0, 0], [0, 1, 0], [0, 0, 1]]]

/-- The all-ones 2x2x2 patch both markers extract from `cexImages`. -/
noncomputable def onesPatch : PatchT ℝ :=
  List.replicate 2 (List.replicate 2 [1, 1])

/-- Evaluation of the marker path at the constant input: all patches are
identical, so the per-(column, channel) standardization maps every patch
to zero and both kernels come out as the zero vector.  (The k-means
branch is not reached — 2 patches against 16 clusters per label — so the
`km` instantiation is irrelevant here.) -/
theorem cexCalc_eq :
    calculateConvWeights (fun k d => d.take k) cexImages cexMarkers 2 [2, 2] [1, 1] 16
      (1 / 1000000) = some [List.replicate 8 (0 : ℝ), List.replicate 8 0] := by
  have h1 : generatePatches cexImages cexMarkers 2 [2, 2] [1, 1] =
      some ([onesPatch, onesPatch], [0, 0]) := by rfl
  have h2 : ((standardizePatches [onesPatch, onesPatch] (1 / 1000000)).map flattenPatch) =
      [List.replicate 8 0, List.replicate 8 0] := by
    norm_num [standardizePatches, meanJC, stdJC, flattenPatch, onesPatch, List.range_succ,
      List.replicate_succ]
  simp only [calculateConvWeights, h1]
  rw [h2]
  show some (([List.replicate 8 (0 : ℝ), List.replicate 8 0]).map normalizeKernelFlat) = _
  norm_num [normalizeKernelFlat, List.replicate_succ]

/-- C6 counterexample: on a constant image batch with a non-empty marker
batch, the marker path produces kernels whose L2 norm is 0, not 1 — the
claimed unit norm fails for kernels that standardize to zero. -/
theorem c6_counterexample :
    calculateConvWeights (fun k d => d.take k) cexImages cexMarkers 2 [2, 2] [1, 1] 16
      (1 / 1000000) = some [List.replicate 8 (0 : ℝ), List.replicate 8 0] ∧
    l2norm (List.replicate 8 (0 : ℝ)) = 0 ∧
    (0 : ℝ) ≠ 1 := by
  refine ⟨cexCalc_eq, ?_, by norm_num⟩
  norm_num [l2norm, sumSq, List.replicate_succ, Real.sqrt_zero]

/-- Witness for C6's amended theorem at the concrete constant input,
instantiated at the first produced kernel. -/
theorem c6_kernel_norms_witness :
    ∃ r : List ℝ,
      List.replicate 8 (0 : ℝ) = normalizeKernelFlat r ∧
      l2norm (List.replicate 8 (0 : ℝ)) = l2norm r / (l2norm r + 1 / 100000) ∧
      l2norm (List.replicate 8 (0 : ℝ)) < 1 :=
  c6_kernel_norms (fun k d => d.take k) cexImages cexMarkers 2 [2, 2] [1, 1] 16
    (1 / 1000000) [List.replicate 8 (0 : ℝ), List.replicate 8 0] cexCalc_eq
    (List.replicate 8 (0 : ℝ)) (by simp)

/-! ### C2 and C7: `_initialize_convNd_weights` and the conv branch of
`_build_module` -/

/-- The `(0, 3, 1, 2)` transpose at `_creator.py:1122` acting on a
flattened `(kh, kw, C)` kernel: entry `(c, i, j)` of the result is entry
`(i, j, c)` of the input, both sides flattened row-major.  It permutes
each kernel's entries, preserving the kernel count and the flattened
length `C * kh * kw`. -/
def transposeFlat (kh kw cin : ℕ) (v : List ℝ) : List ℝ :=
  (List.range cin).bind (fun c =>
    (List.range kh).bind (fun i =>
      (List.range kw).map (fun j => v.getD (i * (kw * cin) + j * cin + c) 0)))

/-- Embedding of `_select_kernels_with_pca` (`_creator.py:844-858`):
`n_components` is clamped to `min(n_samples, n_features)` when it
exceeds either, and PCA's `components_` are returned.  `pca k data`
stands for `PCA(n_components=k).fit(data).components_`; the
`reshape(n, -1)` before and the reshape back after the call are the
identity at this flattened representation. -/
def selectKernelsWithPca (pca : ℕ → List (List ℝ) → List (List ℝ))
    (kernels : List (List ℝ)) (k : ℕ) : List (List ℝ) :=
  pca (if kernels.length < k ∨ (kernels.headD []).length < k
       then min kernels.length ((kernels.headD []).length) else k) kernels

/-- Embedding of `_enforce_norm` (`_creator.py:815-829`): L2-normalize
each flattened kernel (no epsilon) and subtract its own mean. -/
noncomputable def enforceNorm (kernels : List (List ℝ)) : List (List ℝ) :=
  kernels.map (fun v =>
    let normalized := v.map (fun x => x / l2norm v)
    normalized.map (fun x => x - normalized.sum / (normalized.length : ℝ)))

/-- Embedding of `_initialize_convNd_weights` (`_creator.py:1079-1140`),
2d path.  `pca`/`km` model sklearn `PCA`/`KMeans` as in
`selectKernelsWithPca`/`kmeansRootsForLabel`; `rand n cin ks` models
`torch.rand(n, cin, *ks)` as `n` flattened kernels.  The three source
branches: random-PCA kernels when `use_random_kernels`
(`_create_random_pca_kernels`); the marker path
(`_calculate_convNd_weights`, the `(0, 3, 1, 2)` transpose, the
"Not enough kernels" assert, then PCA reduction when the flattened
dimensionality `np.prod(shape[1:])` exceeds `out_channels`, else
re-clustering under the single pseudo-label `np.ones(n)`) when images
and markers are given; otherwise plain `torch.rand`.  Python failures
(assert, `TypeError` from a `None` `out_channels` or `n_clusters`, the
`AttributeError` when no image had markers) are `Except.error`; the
`TypeError` for a `None` `number_of_kernels_per_marker` is reported
before patch extraction rather than inside the first k-means
comparison. -/
noncomputable def initializeConvNdWeights
    (pca km : ℕ → List (List ℝ) → List (List ℝ))
    (rand : ℕ → ℕ → List ℕ → List (List ℝ))
    (images : Option (List (ImageT ℝ))) (markers : Option (List MarkerMap))
    (in_channels : ℕ) (out_channels : Option ℕ)
    (kernel_size dilation : List ℕ) (number_of_kernels_per_marker : Option ℕ)
    (use_random_kernels : Bool) (default_std : ℝ) :
    Except String (List (List ℝ)) :=
  if use_random_kernels then
    match out_channels with
    | none => .error "TypeError: out_channels is None"
    | some oc =>
      .ok (selectKernelsWithPca pca (enforceNorm (rand (oc * 10) in_channels kernel_size)) oc)
  else
    match images, markers with
    | some imgs, some mks =>
      match number_of_kernels_per_marker with
      | none => .error "TypeError: n_clusters is None"
      | some nk =>
        match calculateConvWeights km imgs mks in_channels kernel_size dilation nk
            default_std with
        | none => .error "AttributeError: all_patches is None"
        | some kw =>
          let kwT := kw.map
            (transposeFlat (kernel_size.getD 0 0) (kernel_size.getD 1 0) in_channels)
          match out_channels with
          | some oc =>
            if kwT.length < oc then .error "Not enough kernels were generated!!!"
            else if oc < kwT.length ∧ oc < (kwT.headD []).length then
              .ok (selectKernelsWithPca pca kwT oc)
            else if oc < kwT.length then
              .ok (kmeansRoots km kwT (List.replicate kwT.length 1) oc)
            else .ok kwT
          | none => .ok kwT
    | _, _ =>
      match out_channels with
      | none => .error "TypeError: out_channels is None"
      | some oc => .ok (rand oc in_channels kernel_size)

/-- `dedup` of a constant list is a singleton. -/
theorem dedup_replicate_one (m : ℕ) : (List.replicate (m + 1) (1 : ℤ)).dedup = [1] := by
  induction m with
  | zero => rfl
  | succ m ih =>
    rw [List.replicate_succ, List.dedup_cons_of_mem (by simp [List.mem_replicate])]
    exact ih

/-- `np.unique` of `np.ones(n)` is `[1]`. -/
theorem uniqueSorted_replicate_one (n : ℕ) (hn : 0 < n) :
    uniqueSorted (List.replicate n (1 : ℤ)) = [1] := by
  obtain ⟨m, rfl⟩ : ∃ m, n = m + 1 := ⟨n - 1, by omega⟩
  rw [uniqueSorted, dedup_replicate_one]
  rfl

/-- Selecting by the pseudo-label 1 against `np.ones(n)` keeps every
kernel. -/
theorem labelSelect_replicate_one {V : Type} (patches : List V) :
    labelSelect patches (List.replicate patches.length (1 : ℤ)) 1 = patches := by
  induction patches with
  | nil => rfl
  | cons p ps ih =>
    have hih := ih
    simp only [labelSelect] at hih
    simp [labelSelect, List.replicate_succ, List.filter_cons, hih]

/-- Re-clustering the kernel set under the single pseudo-label: the
whole set goes to one k-means call. -/
theorem kmeansRoots_replicate_ones {V : Type} (km : ℕ → List V → List V)
    (patches : List V) (k : ℕ) (hk : k < patches.length) :
    kmeansRoots km patches (List.replicate patches.length (1 : ℤ)) k = km k patches := by
  rw [kmeansRoots, uniqueSorted_replicate_one _ (by omega)]
  show kmeansRootsForLabel km patches (List.replicate patches.length 1) k 1 ++ [] = _
  rw [List.append_nil, kmeansRootsForLabel, labelSelect_replicate_one,
    if_pos hk]

/-- C2: when `out_channels` is explicitly requested on the marker path
of `_initialize_convNd_weights`, synthesis of fewer kernels than
requested is a hard error (never padded), and synthesis of more kernels
is reduced — by PCA when the flattened kernel dimensionality exceeds
`out_channels`, otherwise by re-clustering under a single pseudo-label —
so that the returned weight tensor's first dimension is exactly
`out_channels`.  `pca`/`km` are constrained only by the sklearn row-count
contracts. -/
theorem c2_out_channels_exact (pca km : ℕ → List (List ℝ) → List (List ℝ))
    (hpca : ∀ (k : ℕ) (d : List (List ℝ)), k ≤ d.length → (pca k d).length = k)
    (hkm : ∀ (k : ℕ) (d : List (List ℝ)), k ≤ d.length → (km k d).length = k)
    (rand : ℕ → ℕ → List ℕ → List (List ℝ))
    (imgs : List (ImageT ℝ)) (mks : List MarkerMap)
    (cin oc : ℕ) (ks dil : List ℕ) (nk : ℕ) (σ : ℝ) (kw : List (List ℝ))
    (hcalc : calculateConvWeights km imgs mks cin ks dil nk σ = some kw) :
    (kw.length < oc →
      initializeConvNdWeights pca km rand (some imgs) (some mks) cin (some oc) ks dil
        (some nk) false σ = .error "Not enough kernels were generated!!!") ∧
    (oc ≤ kw.length → ∃ w,
      initializeConvNdWeights pca km rand (some imgs) (some mks) cin (some oc) ks dil
        (some nk) false σ = .ok w ∧ w.length = oc) := by
  set kwT := kw.map (transposeFlat (ks.getD 0 0) (ks.getD 1 0) cin) with hkwT
  have hlen : kwT.length = kw.length := List.length_map _ _
  have hinit : initializeConvNdWeights pca km rand (some imgs) (some mks) cin (some oc)
      ks dil (some nk) false σ =
      (if kwT.length < oc then .error "Not enough kernels were generated!!!"
       else if oc < kwT.length ∧ oc < (kwT.headD []).length then
         .ok (selectKernelsWithPca pca kwT oc)
       else if oc < kwT.length then
         .ok (kmeansRoots km kwT (List.replicate kwT.length 1) oc)
       else .ok kwT) := by
    rw [initializeConvNdWeights, if_neg (by simp)]
    rw [hcalc]
  constructor
  · intro hlt
    rw [hinit]
    rw [if_pos (by omega)]
  · intro hge
    rw [hinit]
    rw [if_neg (by omega)]
    by_cases hred : oc < kwT.length
    · by_cases hdim : oc < (kwT.headD []).length
      · rw [if_pos ⟨hred, hdim⟩]
        refine ⟨_, rfl, ?_⟩
        rw [selectKernelsWithPca, if_neg (by omega), hpca oc kwT (by omega)]
      · rw [if_neg (by tauto), if_pos hred]
        refine ⟨_, rfl, ?_⟩
        rw [kmeansRoots_replicate_ones km kwT oc hred, hkm oc kwT (by omega)]
    · rw [if_neg (by tauto), if_neg hred]
      exact ⟨kwT, rfl, by omega⟩

/-- Witness for C2's theorem at the concrete constant input: synthesis
produced two kernels of flattened dimension 8; with `out_channels = 1`
requested, the result has exactly one kernel. -/
theorem c2_out_channels_exact_witness :
    ((2 : ℕ) < 1 →
      initializeConvNdWeights (fun k d => d.take k) (fun k d => d.take k)
        (fun _ _ _ => []) (some cexImages) (some cexMarkers) 2 (some 1) [2, 2] [1, 1]
        (some 16) false (1 / 1000000) = .error "Not enough kernels were generated!!!") ∧
    ((1 : ℕ) ≤ 2 → ∃ w,
      initializeConvNdWeights (fun k d => d.take k) (fun k d => d.take k)
        (fun _ _ _ => []) (some cexImages) (some cexMarkers) 2 (some 1) [2, 2] [1, 1]
        (some 16) false (1 / 1000000) = .ok w ∧ w.length = 1) := by
  have h := c2_out_channels_exact (fun k d => d.take k) (fun k d => d.take k)
    (fun k d hk => by rw [List.length_take]; omega)
    (fun k d hk => by rw [List.length_take]; omega)
    (fun _ _ _ => []) cexImages cexMarkers 2 1 [2, 2] [1, 1] 16 (1 / 1000000)
    [List.replicate 8 (0 : ℝ), List.replicate 8 0] cexCalc_eq
  simpa using h

/-- The result of building one convolution leaf: the `out_channels` the
layer is constructed with and the weight tensor assigned to it
(`layer = operation(in_channels, out_channels, ...)`;
`layer.weight = nn.Parameter(weights)`). -/
structure ConvBuildResult where
  out_channels : ℕ
  weights : List (List ℝ)

/-- Reduction of an `Except` bind on a success value. -/
theorem except_bind_ok {ε α β : Type} (a : α) (f : α → Except ε β) :
    (Except.ok a >>= f : Except ε β) = f a := rfl

/-- `pure` on `Except` is `ok`. -/
theorem except_pure_eq {ε α : Type} (a : α) : (pure a : Except ε α) = Except.ok a := rfl

/-- Embedding of the conv2d/conv3d branch of `LCNCreator._build_module`
(`_creator.py:377-454`), without the optional duplicate-filter pruning:
the `out_channels`-or-`markers` assert (line 396), the
`number_of_kernels_per_marker` default (410-411, `resolvedNKPM`), the
resume-path override of `out_channels` by the saved weight tensor's
leading dimension (`state_dict[f'feature_extractor.{key}.weight'].size(0)`,
lines 416-417), the never-failing assert (419-421,
`convOutChannelsAssert`; its second, never-evaluated disjunct is
totalized with `getD` defaults), weight initialization (423-431), the
weight-shape assert (432-434) and the `out_channels = weights.shape[0]`
fallback (436-437).  `sdWeightShape` is the shape of this layer's saved
weight when a state dict is given. -/
noncomputable def buildConvLeaf
    (pca km : ℕ → List (List ℝ) → List (List ℝ))
    (rand : ℕ → ℕ → List ℕ → List (List ℝ))
    (images : Option (List (ImageT ℝ))) (markers : Option (List MarkerMap))
    (sdWeightShape : Option (List ℕ))
    (params_out_channels params_nkpm : Option ℕ)
    (use_random_kernels : Bool)
    (in_channels : ℕ) (kernel_size dilation : List ℕ) (default_std : ℝ) :
    Except String ConvBuildResult := do
  if params_out_channels = none ∧ markers = none then
    throw "`out_channels` or `markers` must be defined."
  let nkpm ← resolvedNKPM params_out_channels params_nkpm markers
  let out_channels := if (images = none ∨ markers = none) ∧ sdWeightShape.isSome
    then sdWeightShape.map (fun s => s.headD 0)
    else params_out_channels
  if convOutChannelsAssert out_channels
      (decide (out_channels.getD 0 ≤ nkpm.getD 0 * (markersMax (markers.getD [])).toNat))
      = false then
    throw "The number of kernels per marker is not enough."
  let weights ← initializeConvNdWeights pca km rand images markers in_channels
    out_channels kernel_size dilation nkpm use_random_kernels default_std
  match out_channels with
  | some oc => if weights.length ≠ oc then throw "Weights shape is not correct." else pure ()
  | none => pure ()
  return ⟨out_channels.getD weights.length, weights⟩

/-- C7: on the resume-from-saved-state path (a state dict given, no
images and no markers), the constructed convolution's output channel
count is exactly the leading dimension of the saved weight tensor, its
weights are the plain `torch.rand` fallback, and the result does not
depend on the clustering or PCA routines — patch sampling and
marker-based synthesis are bypassed. -/
theorem c7_resume_out_channels (pca pca' km km' : ℕ → List (List ℝ) → List (List ℝ))
    (rand : ℕ → ℕ → List ℕ → List (List ℝ))
    (hrand : ∀ (n cin : ℕ) (ks : List ℕ), (rand n cin ks).length = n)
    (n : ℕ) (rest : List ℕ) (p : ℕ) (params_nkpm : Option ℕ)
    (cin : ℕ) (ks dil : List ℕ) (σ : ℝ) :
    buildConvLeaf pca km rand none none (some (n :: rest)) (some p) params_nkpm false
      cin ks dil σ = .ok ⟨n, rand n cin ks⟩ ∧
    buildConvLeaf pca km rand none none (some (n :: rest)) (some p) params_nkpm false
      cin ks dil σ =
      buildConvLeaf pca' km' rand none none (some (n :: rest)) (some p) params_nkpm false
        cin ks dil σ := by
  have key : ∀ pca0 km0 : ℕ → List (List ℝ) → List (List ℝ),
      buildConvLeaf pca0 km0 rand none none (some (n :: rest)) (some p) params_nkpm false
        cin ks dil σ = .ok ⟨n, rand n cin ks⟩ := by
    intro pca0 km0
    rw [buildConvLeaf]
    simp only [resolvedNKPM, initializeConvNdWeights, convOutChannelsAssert, hrand]
    simp [except_bind_ok, except_pure_eq, hrand]
  exact ⟨key pca km, (key pca km).trans (key pca' km').symm⟩

/-- Witness for C7's theorem at a concrete input: saved weight shape
`(3, 2, 3, 3)` yields a convolution with 3 output channels. -/
theorem c7_resume_out_channels_witness :
    buildConvLeaf (fun k d => d.take k) (fun k d => d.take k)
      (fun m _ _ => List.replicate m []) none none (some [3, 2, 3, 3]) (some 7) none false
      2 [3, 3] [1, 1] 0 = .ok ⟨3, List.replicate 3 []⟩ ∧
    buildConvLeaf (fun k d => d.take k) (fun k d => d.take k)
      (fun m _ _ => List.replicate m []) none none (some [3, 2, 3, 3]) (some 7) none false
      2 [3, 3] [1, 1] 0 =
      buildConvLeaf (fun k d => d.drop k) (fun k d => d.drop k)
        (fun m _ _ => List.replicate m []) none none (some [3, 2, 3, 3]) (some 7) none false
        2 [3, 3] [1, 1] 0 :=
  c7_resume_out_channels (fun k d => d.take k) (fun k d => d.drop k)
    (fun k d => d.take k) (fun k d => d.drop k)
    (fun m _ _ => List.replicate m []) (fun _ _ _ => List.length_replicate _ _)
    3 [2, 3, 3] 7 none 2 [3, 3] [1, 1] 0
